import Mathlib

/-!
Shallow embedding of the `roll` CLI (github.org/jg-l/roll, `main.go`) and
proofs about its decision engine, state transitions, stores and dice roller.

Go `int` values are embedded as `Int`; randomness is embedded as an explicit
stream of pre-drawn naturals, each draw consuming one stream position, so a
universally quantified stream covers every possible sequence of draws.
-/

namespace Roll

/-- Engine parameters of one named decision (`Config` in `main.go`). -/
structure Config where
  name : String
  chance : Int
  grace : Int
  pity : Int
  variance : Int
  deriving DecidableEq

/-- Mutable per-name rolling state (`State` in `main.go`). -/
structure State where
  pityCounter : Int
  lastRoll : Int
  deriving DecidableEq

/-- Deterministic model of the process PRNG: an infinite stream of pre-drawn
natural numbers together with the index of the next draw. -/
structure Rng where
  stream : Nat → Nat
  idx : Nat

/-- Advance the generator past one consumed draw. -/
def Rng.advance (g : Rng) : Rng := ⟨g.stream, g.idx + 1⟩

/-- Model of Go `rand.Intn n`: a uniform draw from `[0, n)`. `rand.Intn`
panics when `n ≤ 0`, modelled as `none`; otherwise the next stream value
reduced mod `n` is returned, which ranges over all of `[0, n)` as the
stream varies. -/
def randIntn (n : Int) (g : Rng) : Option (Int × Rng) :=
  if n ≤ 0 then none else some ((g.stream g.idx : Int) % n, g.advance)

/-- The variance block of `rollCmd` (`main.go` lines 188-194): when
`config.Variance > 0`, draw `varianceRoll = rand.Intn(Variance) + 1` and add
`Grace` to the effective chance iff `rand.Intn(varianceRoll) == 0`. -/
def varianceAdjust (config : Config) (effectiveChance : Int) (g : Rng) :
    Option (Int × Rng) :=
  if config.variance > 0 then
    match randIntn config.variance g with
    | none => none
    | some (x, g) =>
      let varianceRoll := x + 1
      match randIntn varianceRoll g with
      | none => none
      | some (y, g) =>
        some (if y = 0 then effectiveChance + config.grace else effectiveChance, g)
  else some (effectiveChance, g)

/-- The report printed by one decision roll together with the state written
back to the store. -/
structure RollResult where
  effectiveChance : Int
  roll : Int
  success : Bool
  newState : State
  deriving DecidableEq

/-- The decision-roll transaction body of `rollCmd` (`main.go` lines
185-230): effective chance from pity, variance adjustment, cap at 100, the
main `[1,100]` roll, the success test, and the pity-counter / last-roll
update. -/
def rollCmd (config : Config) (state : State) (g : Rng) :
    Option (RollResult × Rng) :=
  let effectiveChance := config.chance + state.pityCounter * config.grace
  match varianceAdjust config effectiveChance g with
  | none => none
  | some (e1, g) =>
    let e2 := if e1 > 100 then 100 else e1
    match randIntn 100 g with
    | none => none
    | some (r, g) =>
      let roll := r + 1
      let success : Bool := decide (roll ≤ e2)
      let newPity : Int :=
        if success then 0
        else if state.pityCounter < config.pity then state.pityCounter + 1
        else state.pityCounter
      some (⟨e2, roll, success, ⟨newPity, roll⟩⟩, g)

/-- Spec §4.3 RandomSource contract: `UniformInt(lo, hi)` draws uniformly
from the closed range `[lo, hi]`; an empty range is invalid. -/
def uniformInt (lo hi : Int) (g : Rng) : Option (Int × Rng) :=
  if hi < lo then none
  else some (lo + (g.stream g.idx : Int) % (hi - lo + 1), g.advance)

/-- Modelled from the spec (§4.1 DecisionEngine algorithm, steps 1-9),
written independently of `rollCmd`: bonus from pity, two-stage uniform
variance draw (`v` from `[1,variance]`, `t` from `[1,v]`, extra grace iff
`t = 1`), clamp to 100 after the variance bonus, uniform roll from
`[1,100]`, success iff `roll ≤ effective`, pity update `0` on success and
`min (pity_counter + 1) pity` on failure, `last_roll := roll`. -/
def specRoll (config : Config) (state : State) (g : Rng) :
    Option (RollResult × Rng) :=
  let bonus := state.pityCounter * config.grace
  let effective := config.chance + bonus
  match (if config.variance > 0 then
           match uniformInt 1 config.variance g with
           | none => none
           | some (v, g) =>
             match uniformInt 1 v g with
             | none => none
             | some (t, g) =>
               some (if t = 1 then effective + config.grace else effective, g)
         else some (effective, g)) with
  | none => none
  | some (e1, g) =>
    let e2 := if e1 > 100 then 100 else e1
    match uniformInt 1 100 g with
    | none => none
    | some (roll, g) =>
      let success : Bool := decide (roll ≤ e2)
      let newPity : Int :=
        if success then 0 else min (state.pityCounter + 1) config.pity
      some (⟨e2, roll, success, ⟨newPity, roll⟩⟩, g)

/-- Derived "Current chance" line printed by `showCmd` (`main.go` line 319):
`config.Chance + state.PityCounter * config.Grace`, with no clamping. -/
def showCurrentChance (config : Config) (state : State) : Int :=
  config.chance + state.pityCounter * config.grace

/-- The two persistence collaborators: the TOML config directory (one file
per name) and the bbolt `states` bucket (one record per name), both keyed by
the configuration name. -/
structure Stores where
  configs : String → Option Config
  states : String → Option State

/-- The `create` command (`main.go` lines 73-152): validate the ranges,
then write the Config file (`os.Create` truncates, so an existing file is
replaced) and `Put` the state `{0, 0}` into the `states` bucket (also an
unconditional overwrite). `none` models the fatal validation errors. -/
def createCmd (name : String) (chance grace pity variance : Int)
    (s : Stores) : Option Stores :=
  if chance < 0 ∨ chance > 100 then none
  else if grace < 0 then none
  else if pity < 0 then none
  else if variance < 0 then none
  else
    let config : Config := ⟨name, chance, grace, pity, variance⟩
    some { configs := fun n => if n = name then some config else s.configs n,
           states := fun n => if n = name then some ⟨0, 0⟩ else s.states n }

/-- The `delete` command (`main.go` lines 329-352): remove the config file
and delete the state record; fatal (`none`) when the config file is
absent. -/
def deleteCmd (name : String) (s : Stores) : Option Stores :=
  match s.configs name with
  | none => none
  | some _ =>
    some { configs := fun n => if n = name then none else s.configs n,
           states := fun n => if n = name then none else s.states n }

/-- The full `roll` command (`main.go` lines 159-236): load the Config and
the State for `name`, run the decision roll, and write the new State back;
the config store is only read. -/
def rollTop (name : String) (s : Stores) (g : Rng) :
    Option (Stores × RollResult × Rng) :=
  match s.configs name with
  | none => none
  | some config =>
    match s.states name with
    | none => none
    | some state =>
      match rollCmd config state g with
      | none => none
      | some (res, g) =>
        some ({ s with
                states := fun n => if n = name then some res.newState
                                   else s.states n }, res, g)

/-- States of one named decision that the program can actually produce:
the state written by `create`, and every state written back by a roll. -/
inductive Reachable (config : Config) : State → Prop
  | init : Reachable config ⟨0, 0⟩
  | step (s : State) (g g' : Rng) (res : RollResult) :
      Reachable config s → rollCmd config s g = some (res, g') →
      Reachable config res.newState

/-- Error kind raised by the `dice` command on an unsupported dice string. -/
inductive DiceError where
  | invalidDiceType
  deriving DecidableEq

/-- The dice-type switch of `diceCmd` (`main.go` lines 368-387): each
supported type is matched against exactly its lower- and upper-case `d`
spelling; everything else is the fatal default branch. -/
def parseDiceType (diceType : String) : Option Int :=
  if diceType = "d10" ∨ diceType = "D10" then some 10
  else if diceType = "d5" ∨ diceType = "D5" then some 5
  else if diceType = "d4" ∨ diceType = "D4" then some 4
  else if diceType = "d6" ∨ diceType = "D6" then some 6
  else if diceType = "d8" ∨ diceType = "D8" then some 8
  else if diceType = "d12" ∨ diceType = "D12" then some 12
  else if diceType = "d20" ∨ diceType = "D20" then some 20
  else if diceType = "d100" ∨ diceType = "D100" then some 100
  else none

/-- What the `dice` command prints: the raw roll, and when `shift ≠ 0` the
shifted result together with the shifted display range. -/
structure DiceReport where
  roll : Int
  shifted : Option (Int × Int × Int)
  deriving DecidableEq

/-- The `dice` command (`main.go` lines 359-402): resolve the dice type
(fatal `InvalidDiceType` on the default branch, before any draw), roll
`rand.Intn(sides) + 1`, and report the shifted result/range only when
`shift ≠ 0`. The outer `Option` models `rand.Intn` panic-freedom. -/
def diceCmd (diceType : String) (shift : Int) (g : Rng) :
    Option (Except DiceError (DiceReport × Rng)) :=
  match parseDiceType diceType with
  | none => some (.error .invalidDiceType)
  | some sides =>
    match randIntn sides g with
    | none => none
    | some (r, g) =>
      let roll := r + 1
      some (.ok (⟨roll, if shift ≠ 0 then some (roll + shift, 1 + shift, sides + shift)
                        else none⟩, g))

/-- Modelled from the spec (§6, `dice <type>`: "`type` is one of the
enumerated dice strings (case-insensitive)"): lower-casing of a dice-type
string, character by character. -/
def lowerStr (s : String) : String := ⟨s.data.map Char.toLower⟩

/-- Modelled from the spec (§4.2 and §6): the case-insensitive dice table,
a lookup of the lower-cased dice string among the eight supported dice. -/
def specDiceSides (s : String) : Option Int :=
  if lowerStr s = "d4" then some 4
  else if lowerStr s = "d5" then some 5
  else if lowerStr s = "d6" then some 6
  else if lowerStr s = "d8" then some 8
  else if lowerStr s = "d10" then some 10
  else if lowerStr s = "d12" then some 12
  else if lowerStr s = "d20" then some 20
  else if lowerStr s = "d100" then some 100
  else none


theorem randIntn_pos {n : Int} (hn : 0 < n) (g : Rng) :
    randIntn n g = some ((g.stream g.idx : Int) % n, g.advance) := by
  simp [randIntn, show ¬ n ≤ 0 by omega]

theorem emod_nonneg_of_pos {a n : Int} (hn : 0 < n) : 0 ≤ a % n :=
  Int.emod_nonneg _ (by omega)

theorem varianceAdjust_pos (config : Config) (e : Int) (g : Rng)
    (hv : 0 < config.variance) :
    varianceAdjust config e g =
      some ((if (g.stream (g.idx + 1) : Int) %
                ((g.stream g.idx : Int) % config.variance + 1) = 0
             then e + config.grace else e), g.advance.advance) := by
  have hx : (0:Int) ≤ (g.stream g.idx : Int) % config.variance :=
    emod_nonneg_of_pos hv
  have h1 : (0:Int) < (g.stream g.idx : Int) % config.variance + 1 := by omega
  simp only [varianceAdjust, if_pos hv, randIntn_pos hv, randIntn_pos h1, Rng.advance]

theorem varianceAdjust_zero (config : Config) (e : Int) (g : Rng)
    (hv : ¬ 0 < config.variance) :
    varianceAdjust config e g = some (e, g) := by
  rw [varianceAdjust, if_neg hv]

theorem uniformInt_pos {lo hi : Int} (h : lo ≤ hi) (g : Rng) :
    uniformInt lo hi g = some (lo + (g.stream g.idx : Int) % (hi - lo + 1), g.advance) := by
  simp [uniformInt, show ¬ hi < lo by omega]

/-- C1: a decision roll computes exactly the spec algorithm: effective
chance `chance + pity_counter * grace`, one extra `grace` iff the variance
bonus fires, a cap at 100 applied after the variance bonus, a uniform raw
roll from `[1, 100]`, and success iff `roll ≤ effective`. -/
theorem rollCmd_eq_specRoll (config : Config) (state : State) (g : Rng)
    (hp : state.pityCounter ≤ config.pity) :
    rollCmd config state g = specRoll config state g := by
  have hmin : (if state.pityCounter < config.pity then state.pityCounter + 1
               else state.pityCounter) = min (state.pityCounter + 1) config.pity := by
    split_ifs <;> omega
  by_cases hv : 0 < config.variance
  · have hx : (0:Int) ≤ (g.stream g.idx : Int) % config.variance :=
      emod_nonneg_of_pos hv
    rw [rollCmd, specRoll, varianceAdjust_pos _ _ _ hv]
    simp only [if_pos hv,
      uniformInt_pos (show (1:Int) ≤ config.variance from by omega),
      show config.variance - 1 + 1 = config.variance from by ring,
      Rng.advance, Int.add_comm 1, Int.add_sub_cancel,
      uniformInt_pos (show (1:Int) ≤ (g.stream g.idx : Int) % config.variance + 1 from by omega),
      uniformInt_pos (show (1:Int) ≤ 100 from by norm_num),
      randIntn_pos (show (0:Int) < 100 from by norm_num),
      show (100:Int) - 1 + 1 = 100 from by norm_num,
      add_left_eq_self, hmin]
  · rw [rollCmd, specRoll, varianceAdjust_zero _ _ _ hv, if_neg hv]
    simp only [randIntn_pos (show (0:Int) < 100 from by norm_num),
      uniformInt_pos (show (1:Int) ≤ 100 from by norm_num), Rng.advance, hmin,
      show (100:Int) - 1 + 1 = 100 from by norm_num, Int.add_comm 1]

theorem rollCmd_eq_specRoll_witness :
    (⟨1, 0⟩ : State).pityCounter ≤ (⟨"w", 10, 5, 3, 2⟩ : Config).pity ∧
    rollCmd ⟨"w", 10, 5, 3, 2⟩ ⟨1, 0⟩ ⟨fun _ => 7, 0⟩ =
      specRoll ⟨"w", 10, 5, 3, 2⟩ ⟨1, 0⟩ ⟨fun _ => 7, 0⟩ :=
  ⟨by norm_num, rollCmd_eq_specRoll _ _ _ (by norm_num)⟩

theorem rollCmd_shape (config : Config) (state : State) (g : Rng)
    (res : RollResult) (g' : Rng) (h : rollCmd config state g = some (res, g')) :
    ∃ e1 gmid,
      varianceAdjust config (config.chance + state.pityCounter * config.grace) g =
        some (e1, gmid) ∧
      res.effectiveChance = (if e1 > 100 then 100 else e1) ∧
      res.roll = (gmid.stream gmid.idx : Int) % 100 + 1 ∧
      1 ≤ res.roll ∧ res.roll ≤ 100 ∧
      res.success = decide (res.roll ≤ res.effectiveChance) ∧
      res.newState = ⟨(if res.success then 0
                       else if state.pityCounter < config.pity then state.pityCounter + 1
                       else state.pityCounter), res.roll⟩ ∧
      g' = gmid.advance := by
  rw [rollCmd] at h
  cases hva : varianceAdjust config (config.chance + state.pityCounter * config.grace) g with
  | none => rw [hva] at h; exact absurd h (by simp)
  | some p =>
    obtain ⟨e1, gmid⟩ := p
    rw [hva] at h
    simp only [randIntn_pos (show (0:Int) < 100 from by norm_num),
      Option.some.injEq, Prod.mk.injEq] at h
    obtain ⟨hres, hg⟩ := h
    have hz : (0:Int) ≤ (gmid.stream gmid.idx : Int) % 100 :=
      emod_nonneg_of_pos (by norm_num)
    have hz2 : (gmid.stream gmid.idx : Int) % 100 < 100 :=
      Int.emod_lt_of_pos _ (by norm_num)
    subst hres hg
    refine ⟨e1, gmid, rfl, rfl, rfl, ?_, ?_, rfl, rfl, rfl⟩ <;> dsimp only <;> omega

/-- C3: for a roll starting from `pity_counter ≤ pity` (with `pity ≥ 0` as
guaranteed at create time), success resets the pity counter to 0, failure
sets it to `min (pity_counter + 1) pity`, and the counter never exceeds
`pity` after the roll. -/
theorem pity_update_correct (config : Config) (state : State) (g : Rng)
    (res : RollResult) (g' : Rng)
    (hpity : 0 ≤ config.pity) (hp : state.pityCounter ≤ config.pity)
    (h : rollCmd config state g = some (res, g')) :
    (res.success = true → res.newState.pityCounter = 0) ∧
    (res.success = false →
      res.newState.pityCounter = min (state.pityCounter + 1) config.pity) ∧
    res.newState.pityCounter ≤ config.pity := by
  obtain ⟨e1, gmid, -, -, -, -, -, -, hns, -⟩ := rollCmd_shape _ _ _ _ _ h
  refine ⟨fun hs => ?_, fun hs => ?_, ?_⟩
  · simp [hns, hs]
  · simp [hns, hs]
    split_ifs <;> omega
  · cases hs : res.success <;> simp [hns, hs] <;> first | omega | (split_ifs <;> omega)

theorem pity_update_correct_witness :
    ((⟨10, 51, false, ⟨1, 51⟩⟩ : RollResult).success = true →
        (⟨10, 51, false, ⟨1, 51⟩⟩ : RollResult).newState.pityCounter = 0) ∧
    ((⟨10, 51, false, ⟨1, 51⟩⟩ : RollResult).success = false →
        (⟨10, 51, false, ⟨1, 51⟩⟩ : RollResult).newState.pityCounter =
          min ((⟨0, 0⟩ : State).pityCounter + 1) (⟨"w", 10, 5, 3, 0⟩ : Config).pity) ∧
    (⟨10, 51, false, ⟨1, 51⟩⟩ : RollResult).newState.pityCounter ≤
      (⟨"w", 10, 5, 3, 0⟩ : Config).pity :=
  pity_update_correct ⟨"w", 10, 5, 3, 0⟩ ⟨0, 0⟩ ⟨fun _ => 50, 0⟩
    ⟨10, 51, false, ⟨1, 51⟩⟩ ⟨fun _ => 50, 1⟩ (by norm_num) (by norm_num) rfl

/-- C4 (amended): the effective chance reported by a roll is capped at
100. -/
theorem roll_effective_le_100 (config : Config) (state : State) (g : Rng)
    (res : RollResult) (g' : Rng)
    (h : rollCmd config state g = some (res, g')) :
    res.effectiveChance ≤ 100 := by
  obtain ⟨e1, gmid, -, heff, -⟩ := rollCmd_shape _ _ _ _ _ h
  rw [heff]; split <;> omega

theorem roll_effective_le_100_witness :
    (⟨100, 8, true, ⟨0, 8⟩⟩ : RollResult).effectiveChance ≤ 100 :=
  roll_effective_le_100 ⟨"v", 100, 5, 3, 0⟩ ⟨0, 0⟩ ⟨fun _ => 7, 0⟩
    ⟨100, 8, true, ⟨0, 8⟩⟩ ⟨fun _ => 7, 1⟩ rfl

/-- C4 (counterexample): the current effective chance printed by `show` is
not clamped; at the reachable state of this configuration with one failure
banked, `show` prints 106%. -/
theorem show_chance_above_100 :
    Reachable ⟨"x", 96, 10, 3, 0⟩ ⟨1, 97⟩ ∧
      100 < showCurrentChance ⟨"x", 96, 10, 3, 0⟩ ⟨1, 97⟩ :=
  ⟨Reachable.step ⟨0, 0⟩ ⟨fun _ => 96, 0⟩ ⟨fun _ => 96, 1⟩ ⟨96, 97, false, ⟨1, 97⟩⟩
      Reachable.init rfl,
    by norm_num [showCurrentChance]⟩

/-- C10: for configurations satisfying the create-time range checks, every
random draw inside a decision roll has a positive range, so the roll always
completes (no `rand.Intn` panic is reachable). -/
theorem rollCmd_total (config : Config) (state : State) (g : Rng)
    (h0 : 0 ≤ config.chance) (h1 : config.chance ≤ 100)
    (h2 : 0 ≤ config.grace) (h3 : 0 ≤ config.pity) (h4 : 0 ≤ config.variance) :
    (rollCmd config state g).isSome = true := by
  by_cases hv : 0 < config.variance
  · rw [rollCmd, varianceAdjust_pos _ _ _ hv]
    simp [randIntn_pos (show (0:Int) < 100 from by norm_num)]
  · rw [rollCmd, varianceAdjust_zero _ _ _ hv]
    simp [randIntn_pos (show (0:Int) < 100 from by norm_num)]

theorem rollCmd_total_witness :
    (0:Int) ≤ 10 ∧ (rollCmd ⟨"w", 10, 5, 3, 2⟩ ⟨0, 0⟩ ⟨fun _ => 3, 0⟩).isSome = true :=
  ⟨by norm_num,
    rollCmd_total ⟨"w", 10, 5, 3, 2⟩ ⟨0, 0⟩ ⟨fun _ => 3, 0⟩
      (by norm_num) (by norm_num) (by norm_num) (by norm_num) (by norm_num)⟩

/-- C2: when `variance > 0` the variance mechanic is exactly the two-stage
uniform draw (`v` from `[1, variance]`, then `t` from `[1, v]`), the grace
bonus fires iff `t = 1`, `v = 1` forces the bonus, and `variance = 0`
performs no draw and adds no bonus. -/
theorem variance_two_stage (config : Config) (g : Rng) :
    (0 < config.variance →
      ∃ v t : Int,
        uniformInt 1 config.variance g = some (v, g.advance) ∧
        uniformInt 1 v g.advance = some (t, g.advance.advance) ∧
        1 ≤ v ∧ v ≤ config.variance ∧ 1 ≤ t ∧ t ≤ v ∧
        (v = 1 → t = 1) ∧
        (∀ e : Int, varianceAdjust config e g =
          some ((if t = 1 then e + config.grace else e), g.advance.advance))) ∧
    (config.variance = 0 →
      ∀ e : Int, varianceAdjust config e g = some (e, g)) := by
  constructor
  · intro hv
    have hx0 : (0:Int) ≤ (g.stream g.idx : Int) % config.variance :=
      emod_nonneg_of_pos hv
    have hx1 : (g.stream g.idx : Int) % config.variance < config.variance :=
      Int.emod_lt_of_pos _ hv
    have hvpos : (0:Int) < (g.stream g.idx : Int) % config.variance + 1 := by omega
    have hy0 : (0:Int) ≤ (g.stream (g.idx + 1) : Int) %
        ((g.stream g.idx : Int) % config.variance + 1) := emod_nonneg_of_pos hvpos
    have hy1 : (g.stream (g.idx + 1) : Int) %
        ((g.stream g.idx : Int) % config.variance + 1) <
        (g.stream g.idx : Int) % config.variance + 1 := Int.emod_lt_of_pos _ hvpos
    refine ⟨(g.stream g.idx : Int) % config.variance + 1,
            (g.stream (g.idx + 1) : Int) %
              ((g.stream g.idx : Int) % config.variance + 1) + 1,
            ?_, ?_, by omega, by omega, by omega, by omega, ?_, ?_⟩
    · rw [uniformInt_pos (by omega)]
      simp only [Option.some.injEq, Prod.mk.injEq]
      refine ⟨?_, trivial⟩
      rw [show config.variance - 1 + 1 = config.variance from by ring]
      omega
    · rw [uniformInt_pos (by omega)]
      simp only [Option.some.injEq, Prod.mk.injEq, Rng.advance]
      refine ⟨?_, trivial⟩
      rw [Int.add_sub_cancel]
      omega
    · intro hv1
      rw [show (g.stream g.idx : Int) % config.variance = 0 from by omega]
      norm_num
    · intro e
      rw [varianceAdjust_pos _ _ _ hv]
      simp only [Option.some.injEq, Prod.mk.injEq]
      have hiff : ((g.stream (g.idx + 1) : Int) %
            ((g.stream g.idx : Int) % config.variance + 1) = 0) ↔
          ((g.stream (g.idx + 1) : Int) %
            ((g.stream g.idx : Int) % config.variance + 1) + 1 = 1) := by omega
      exact ⟨if_congr hiff rfl rfl, trivial⟩
  · intro hv0 e
    exact varianceAdjust_zero _ _ _ (by omega)

theorem variance_two_stage_witness :
    varianceAdjust ⟨"w", 0, 100, 0, 3⟩ 0 ⟨fun _ => 0, 0⟩ =
      some ((if (1:Int) = 1 then 0 + 100 else 0),
            Rng.advance (Rng.advance ⟨fun _ => 0, 0⟩)) ∧
    varianceAdjust ⟨"w", 10, 5, 3, 0⟩ 25 ⟨fun _ => 4, 0⟩ =
      some (25, ⟨fun _ => 4, 0⟩) := by
  obtain ⟨v, t, h1, h2, -, -, -, -, -, h8⟩ :=
    (variance_two_stage ⟨"w", 0, 100, 0, 3⟩ ⟨fun _ => 0, 0⟩).1 (by norm_num)
  have hv : v = 1 := by
    simp [uniformInt, Rng.advance] at h1
    omega
  subst hv
  have ht : t = 1 := by
    simp [uniformInt, Rng.advance] at h2
    omega
  subst ht
  exact ⟨h8 0, (variance_two_stage ⟨"w", 10, 5, 3, 0⟩ ⟨fun _ => 4, 0⟩).2 rfl 25⟩

/-- C7 (amended): after any roll, `last_roll` equals the raw roll just
drawn and lies in `[1, 100]`; in a reachable state `last_roll` is either
the initial `0` written by `create` or a value in `[1, 100]`. -/
theorem lastRoll_tracks_roll :
    (∀ (config : Config) (s : State), Reachable config s →
       s.lastRoll = 0 ∨ (1 ≤ s.lastRoll ∧ s.lastRoll ≤ 100)) ∧
    (∀ (config : Config) (s : State) (g : Rng) (res : RollResult) (g' : Rng),
       rollCmd config s g = some (res, g') →
       res.newState.lastRoll = res.roll ∧ 1 ≤ res.roll ∧ res.roll ≤ 100) := by
  have h2 : ∀ (config : Config) (s : State) (g : Rng) (res : RollResult) (g' : Rng),
      rollCmd config s g = some (res, g') →
      res.newState.lastRoll = res.roll ∧ 1 ≤ res.roll ∧ res.roll ≤ 100 := by
    intro config s g res g' h
    obtain ⟨e1, gmid, -, -, -, hr1, hr2, -, hns, -⟩ := rollCmd_shape _ _ _ _ _ h
    exact ⟨by simp [hns], hr1, hr2⟩
  refine ⟨?_, h2⟩
  intro config s hreach
  induction hreach with
  | init => exact Or.inl rfl
  | step s g g' res hr hroll ih =>
    obtain ⟨hlr, hb1, hb2⟩ := h2 _ _ _ _ _ hroll
    exact Or.inr ⟨by omega, by omega⟩

theorem lastRoll_tracks_roll_witness :
    (⟨0, 0⟩ : State).lastRoll = 0 ∨
      (1 ≤ (⟨0, 0⟩ : State).lastRoll ∧ (⟨0, 0⟩ : State).lastRoll ≤ 100) :=
  lastRoll_tracks_roll.1 ⟨"w", 10, 5, 3, 0⟩ ⟨0, 0⟩ Reachable.init

/-- C7 (counterexample): the state written by `create` is reachable and its
`last_roll` is 0, outside `[1, 100]`. -/
theorem init_lastRoll_out_of_range :
    Reachable ⟨"w", 10, 5, 3, 0⟩ ⟨0, 0⟩ ∧
      ¬ (1 ≤ (⟨0, 0⟩ : State).lastRoll ∧ (⟨0, 0⟩ : State).lastRoll ≤ 100) :=
  ⟨Reachable.init, by norm_num⟩

/-- C5 (counterexample): `create` uses `os.Create`, which truncates an
existing config file, so a second `create` under the same name replaces the
stored Configuration. -/
theorem create_overwrites_config :
    ((createCmd "a" 10 5 3 0 ⟨fun _ => none, fun _ => none⟩).map
        (fun s => s.configs "a") = some (some ⟨"a", 10, 5, 3, 0⟩)) ∧
    (((createCmd "a" 10 5 3 0 ⟨fun _ => none, fun _ => none⟩).bind
        (createCmd "a" 20 5 3 0)).map (fun s => s.configs "a") =
      some (some ⟨"a", 20, 5, 3, 0⟩)) ∧
    (⟨"a", 20, 5, 3, 0⟩ : Config) ≠ (⟨"a", 10, 5, 3, 0⟩ : Config) :=
  ⟨rfl, rfl, by decide⟩

/-- C5 (amended): a stored Configuration is changed by no operation other
than `create` and `delete`: a roll leaves every stored Configuration
untouched; but invoking `create` again with an existing name does replace
the record with the new parameters (other names unaffected). -/
theorem config_immutable_amended :
    (∀ (name m : String) (s : Stores) (g : Rng),
       (rollTop name s g).map (fun out => out.1.configs m) =
       (rollTop name s g).map (fun _ => s.configs m)) ∧
    (∀ (name : String) (chance grace pity variance : Int) (s : Stores),
       (createCmd name chance grace pity variance s).map (fun s' => s'.configs name) =
       (createCmd name chance grace pity variance s).map
         (fun _ => some ⟨name, chance, grace, pity, variance⟩)) ∧
    (∀ (name m : String) (chance grace pity variance : Int) (s : Stores),
       m ≠ name →
       (createCmd name chance grace pity variance s).map (fun s' => s'.configs m) =
       (createCmd name chance grace pity variance s).map (fun _ => s.configs m)) := by
  refine ⟨?_, ?_, ?_⟩
  · intro name m s g
    rw [rollTop]
    cases hc : s.configs name with
    | none => rfl
    | some config =>
      cases hs : s.states name with
      | none => rfl
      | some state =>
        cases hr : rollCmd config state g with
        | none => simp only [hr]; rfl
        | some p => obtain ⟨res, g'⟩ := p; simp only [hr]; rfl
  · intro name chance grace pity variance s
    rw [createCmd]
    split_ifs <;> simp
  · intro name m chance grace pity variance s hm
    rw [createCmd]
    split_ifs <;> simp [hm]

theorem config_immutable_amended_witness :
    ("b" : String) ≠ "a" ∧
    ((createCmd "a" 10 5 3 0 ⟨fun _ => none, fun _ => none⟩).map
        (fun s' => s'.configs "b") =
      (createCmd "a" 10 5 3 0 ⟨fun _ => none, fun _ => none⟩).map
        (fun _ => (⟨fun _ => none, fun _ => none⟩ : Stores).configs "b")) :=
  ⟨by decide,
    config_immutable_amended.2.2 "a" "b" 10 5 3 0 ⟨fun _ => none, fun _ => none⟩
      (by decide)⟩

/-- C6 (counterexample): `create` writes the zero State unconditionally
(`Put` overwrites), so an existing State record is reset rather than left
unchanged. -/
theorem create_resets_existing_state :
    ((⟨fun _ => none, fun _ => some ⟨2, 50⟩⟩ : Stores).states "a" = some ⟨2, 50⟩) ∧
    ((createCmd "a" 10 5 3 0 ⟨fun _ => none, fun _ => some ⟨2, 50⟩⟩).map
        (fun s => s.states "a") = some (some ⟨0, 0⟩)) ∧
    (⟨2, 50⟩ : State) ≠ (⟨0, 0⟩ : State) :=
  ⟨rfl, rfl, by decide⟩

/-- C6 (amended): a successful `create` always writes the State `{0, 0}`
for its name, overwriting any record already there; States of other names
are untouched. -/
theorem create_initializes_state :
    (∀ (name : String) (chance grace pity variance : Int) (s : Stores),
       (createCmd name chance grace pity variance s).map (fun s' => s'.states name) =
       (createCmd name chance grace pity variance s).map (fun _ => some ⟨0, 0⟩)) ∧
    (∀ (name m : String) (chance grace pity variance : Int) (s : Stores),
       m ≠ name →
       (createCmd name chance grace pity variance s).map (fun s' => s'.states m) =
       (createCmd name chance grace pity variance s).map (fun _ => s.states m)) := by
  constructor
  · intro name chance grace pity variance s
    rw [createCmd]
    split_ifs <;> simp
  · intro name m chance grace pity variance s hm
    rw [createCmd]
    split_ifs <;> simp [hm]

theorem create_initializes_state_witness :
    ("b" : String) ≠ "a" ∧
    ((createCmd "a" 10 5 3 0 ⟨fun _ => none, fun _ => some ⟨2, 50⟩⟩).map
        (fun s' => s'.states "b") =
      (createCmd "a" 10 5 3 0 ⟨fun _ => none, fun _ => some ⟨2, 50⟩⟩).map
        (fun _ => (⟨fun _ => none, fun _ => some ⟨2, 50⟩⟩ : Stores).states "b")) :=
  ⟨by decide,
    create_initializes_state.2 "a" "b" 10 5 3 0
      ⟨fun _ => none, fun _ => some ⟨2, 50⟩⟩ (by decide)⟩

theorem toLower_resolve (c x : Char) (h : c.toLower = x) :
    c = x ∨ (65 ≤ c.toNat ∧ c.toNat ≤ 90 ∧ Char.ofNat (c.toNat + 32) = x) := by
  simp only [Char.toLower] at h
  split at h
  · next hcond => exact Or.inr ⟨by omega, by omega, h⟩
  · exact Or.inl h

theorem toLower_eq_d (c : Char) (h : c.toLower = 'd') : c = 'd' ∨ c = 'D' := by
  rcases toLower_resolve c 'd' h with h1 | ⟨h65, h90, hof⟩
  · exact Or.inl h1
  · right
    have hc : c = Char.ofNat c.toNat := (Char.ofNat_toNat c).symm
    obtain ⟨m, hm⟩ : ∃ m, c.toNat = m := ⟨_, rfl⟩
    rw [hm] at h65 h90 hof hc
    interval_cases m <;> first
      | exact absurd hof (by decide)
      | exact hc.trans (by decide)

theorem toLower_eq_of_lt97 (c x : Char) (hx : x.toNat < 97) (h : c.toLower = x) :
    c = x := by
  rcases toLower_resolve c x h with h1 | ⟨h65, h90, hof⟩
  · exact h1
  · exfalso
    obtain ⟨m, hm⟩ : ∃ m, c.toNat = m := ⟨_, rfl⟩
    rw [hm] at h65 h90 hof
    subst hof
    interval_cases m <;> exact absurd hx (by decide)

theorem map_toLower_cons {l : List Char} {x : Char} {rest : List Char}
    (h : l.map Char.toLower = x :: rest) :
    ∃ a t, l = a :: t ∧ a.toLower = x ∧ t.map Char.toLower = rest := by
  cases l with
  | nil => simp at h
  | cons a t =>
    simp only [List.map_cons, List.cons.injEq] at h
    exact ⟨a, t, rfl, h.1, h.2⟩

theorem map_toLower_nil {l : List Char} (h : l.map Char.toLower = []) : l = [] := by
  cases l with
  | nil => rfl
  | cons a t => simp at h
theorem lowerStr_eq_d4 {s : String} (h : lowerStr s = "d4") :
    s = "d4" ∨ s = "D4" := by
  obtain ⟨data⟩ := s
  have hd : data.map Char.toLower = ['d', '4'] := congrArg String.data h
  obtain ⟨a, t0, rfl, ha, hr0⟩ := map_toLower_cons hd
  obtain ⟨b0, t1, rfl, hb0, hr1⟩ := map_toLower_cons hr0
  rw [map_toLower_nil hr1]
  rw [toLower_eq_of_lt97 b0 '4' (by decide) hb0]
  rcases toLower_eq_d a ha with rfl | rfl
  · exact Or.inl (by decide)
  · exact Or.inr (by decide)

theorem lowerStr_eq_d5 {s : String} (h : lowerStr s = "d5") :
    s = "d5" ∨ s = "D5" := by
  obtain ⟨data⟩ := s
  have hd : data.map Char.toLower = ['d', '5'] := congrArg String.data h
  obtain ⟨a, t0, rfl, ha, hr0⟩ := map_toLower_cons hd
  obtain ⟨b0, t1, rfl, hb0, hr1⟩ := map_toLower_cons hr0
  rw [map_toLower_nil hr1]
  rw [toLower_eq_of_lt97 b0 '5' (by decide) hb0]
  rcases toLower_eq_d a ha with rfl | rfl
  · exact Or.inl (by decide)
  · exact Or.inr (by decide)

theorem lowerStr_eq_d6 {s : String} (h : lowerStr s = "d6") :
    s = "d6" ∨ s = "D6" := by
  obtain ⟨data⟩ := s
  have hd : data.map Char.toLower = ['d', '6'] := congrArg String.data h
  obtain ⟨a, t0, rfl, ha, hr0⟩ := map_toLower_cons hd
  obtain ⟨b0, t1, rfl, hb0, hr1⟩ := map_toLower_cons hr0
  rw [map_toLower_nil hr1]
  rw [toLower_eq_of_lt97 b0 '6' (by decide) hb0]
  rcases toLower_eq_d a ha with rfl | rfl
  · exact Or.inl (by decide)
  · exact Or.inr (by decide)

theorem lowerStr_eq_d8 {s : String} (h : lowerStr s = "d8") :
    s = "d8" ∨ s = "D8" := by
  obtain ⟨data⟩ := s
  have hd : data.map Char.toLower = ['d', '8'] := congrArg String.data h
  obtain ⟨a, t0, rfl, ha, hr0⟩ := map_toLower_cons hd
  obtain ⟨b0, t1, rfl, hb0, hr1⟩ := map_toLower_cons hr0
  rw [map_toLower_nil hr1]
  rw [toLower_eq_of_lt97 b0 '8' (by decide) hb0]
  rcases toLower_eq_d a ha with rfl | rfl
  · exact Or.inl (by decide)
  · exact Or.inr (by decide)

theorem lowerStr_eq_d10 {s : String} (h : lowerStr s = "d10") :
    s = "d10" ∨ s = "D10" := by
  obtain ⟨data⟩ := s
  have hd : data.map Char.toLower = ['d', '1', '0'] := congrArg String.data h
  obtain ⟨a, t0, rfl, ha, hr0⟩ := map_toLower_cons hd
  obtain ⟨b0, t1, rfl, hb0, hr1⟩ := map_toLower_cons hr0
  obtain ⟨b1, t2, rfl, hb1, hr2⟩ := map_toLower_cons hr1
  rw [map_toLower_nil hr2]
  rw [toLower_eq_of_lt97 b0 '1' (by decide) hb0]
  rw [toLower_eq_of_lt97 b1 '0' (by decide) hb1]
  rcases toLower_eq_d a ha with rfl | rfl
  · exact Or.inl (by decide)
  · exact Or.inr (by decide)

theorem lowerStr_eq_d12 {s : String} (h : lowerStr s = "d12") :
    s = "d12" ∨ s = "D12" := by
  obtain ⟨data⟩ := s
  have hd : data.map Char.toLower = ['d', '1', '2'] := congrArg String.data h
  obtain ⟨a, t0, rfl, ha, hr0⟩ := map_toLower_cons hd
  obtain ⟨b0, t1, rfl, hb0, hr1⟩ := map_toLower_cons hr0
  obtain ⟨b1, t2, rfl, hb1, hr2⟩ := map_toLower_cons hr1
  rw [map_toLower_nil hr2]
  rw [toLower_eq_of_lt97 b0 '1' (by decide) hb0]
  rw [toLower_eq_of_lt97 b1 '2' (by decide) hb1]
  rcases toLower_eq_d a ha with rfl | rfl
  · exact Or.inl (by decide)
  · exact Or.inr (by decide)

theorem lowerStr_eq_d20 {s : String} (h : lowerStr s = "d20") :
    s = "d20" ∨ s = "D20" := by
  obtain ⟨data⟩ := s
  have hd : data.map Char.toLower = ['d', '2', '0'] := congrArg String.data h
  obtain ⟨a, t0, rfl, ha, hr0⟩ := map_toLower_cons hd
  obtain ⟨b0, t1, rfl, hb0, hr1⟩ := map_toLower_cons hr0
  obtain ⟨b1, t2, rfl, hb1, hr2⟩ := map_toLower_cons hr1
  rw [map_toLower_nil hr2]
  rw [toLower_eq_of_lt97 b0 '2' (by decide) hb0]
  rw [toLower_eq_of_lt97 b1 '0' (by decide) hb1]
  rcases toLower_eq_d a ha with rfl | rfl
  · exact Or.inl (by decide)
  · exact Or.inr (by decide)

theorem lowerStr_eq_d100 {s : String} (h : lowerStr s = "d100") :
    s = "d100" ∨ s = "D100" := by
  obtain ⟨data⟩ := s
  have hd : data.map Char.toLower = ['d', '1', '0', '0'] := congrArg String.data h
  obtain ⟨a, t0, rfl, ha, hr0⟩ := map_toLower_cons hd
  obtain ⟨b0, t1, rfl, hb0, hr1⟩ := map_toLower_cons hr0
  obtain ⟨b1, t2, rfl, hb1, hr2⟩ := map_toLower_cons hr1
  obtain ⟨b2, t3, rfl, hb2, hr3⟩ := map_toLower_cons hr2
  rw [map_toLower_nil hr3]
  rw [toLower_eq_of_lt97 b0 '1' (by decide) hb0]
  rw [toLower_eq_of_lt97 b1 '0' (by decide) hb1]
  rw [toLower_eq_of_lt97 b2 '0' (by decide) hb2]
  rcases toLower_eq_d a ha with rfl | rfl
  · exact Or.inl (by decide)
  · exact Or.inr (by decide)

theorem parse_imp_spec (s : String) (n : Int) (h : parseDiceType s = some n) :
    specDiceSides s = some n := by
  rw [parseDiceType] at h
  split_ifs at h with h1 h2 h3 h4 h5 h6 h7 h8
  · rcases h1 with rfl | rfl <;> (injection h with h; subst h; decide)
  · rcases h2 with rfl | rfl <;> (injection h with h; subst h; decide)
  · rcases h3 with rfl | rfl <;> (injection h with h; subst h; decide)
  · rcases h4 with rfl | rfl <;> (injection h with h; subst h; decide)
  · rcases h5 with rfl | rfl <;> (injection h with h; subst h; decide)
  · rcases h6 with rfl | rfl <;> (injection h with h; subst h; decide)
  · rcases h7 with rfl | rfl <;> (injection h with h; subst h; decide)
  · rcases h8 with rfl | rfl <;> (injection h with h; subst h; decide)

theorem spec_imp_parse (s : String) (n : Int) (h : specDiceSides s = some n) :
    parseDiceType s = some n := by
  rw [specDiceSides] at h
  split_ifs at h with h1 h2 h3 h4 h5 h6 h7 h8
  · rcases lowerStr_eq_d4 h1 with rfl | rfl <;> (injection h with h; subst h; decide)
  · rcases lowerStr_eq_d5 h2 with rfl | rfl <;> (injection h with h; subst h; decide)
  · rcases lowerStr_eq_d6 h3 with rfl | rfl <;> (injection h with h; subst h; decide)
  · rcases lowerStr_eq_d8 h4 with rfl | rfl <;> (injection h with h; subst h; decide)
  · rcases lowerStr_eq_d10 h5 with rfl | rfl <;> (injection h with h; subst h; decide)
  · rcases lowerStr_eq_d12 h6 with rfl | rfl <;> (injection h with h; subst h; decide)
  · rcases lowerStr_eq_d20 h7 with rfl | rfl <;> (injection h with h; subst h; decide)
  · rcases lowerStr_eq_d100 h8 with rfl | rfl <;> (injection h with h; subst h; decide)

/-- C8: the dice-type switch accepts exactly the strings whose lower-cased
form is one of the eight dice names (case-insensitive matching), produces
exactly the sides values {4,5,6,8,10,12,20,100}, and any other string makes
`dice` fail with `InvalidDiceType` before performing any roll. -/
theorem dice_type_table :
    (∀ s : String, parseDiceType s = specDiceSides s) ∧
    (∀ (s : String) (n : Int), parseDiceType s = some n →
       n = 4 ∨ n = 5 ∨ n = 6 ∨ n = 8 ∨ n = 10 ∨ n = 12 ∨ n = 20 ∨ n = 100) ∧
    (parseDiceType "d4" = some 4 ∧ parseDiceType "d5" = some 5 ∧
     parseDiceType "d6" = some 6 ∧ parseDiceType "d8" = some 8 ∧
     parseDiceType "d10" = some 10 ∧ parseDiceType "d12" = some 12 ∧
     parseDiceType "d20" = some 20 ∧ parseDiceType "d100" = some 100) ∧
    (∀ (s : String) (shift : Int) (g : Rng), parseDiceType s = none →
       diceCmd s shift g = some (.error .invalidDiceType)) := by
  refine ⟨?_, ?_, by decide, ?_⟩
  · intro s
    cases hp : parseDiceType s with
    | some n => exact (parse_imp_spec s n hp).symm
    | none =>
      cases hq : specDiceSides s with
      | none => rfl
      | some m =>
        have := spec_imp_parse s m hq
        rw [hp] at this
        cases this
  · intro s n h
    rw [parseDiceType] at h
    split_ifs at h <;> (injection h with h; subst h; simp)
  · intro s shift g h
    rw [diceCmd, h]

theorem dice_type_table_witness :
    ((20:Int) = 4 ∨ (20:Int) = 5 ∨ (20:Int) = 6 ∨ (20:Int) = 8 ∨
      (20:Int) = 10 ∨ (20:Int) = 12 ∨ (20:Int) = 20 ∨ (20:Int) = 100) ∧
    diceCmd "d7" 2 ⟨fun _ => 0, 0⟩ = some (.error .invalidDiceType) :=
  ⟨dice_type_table.2.1 "D20" 20 (by decide),
    dice_type_table.2.2.2 "d7" 2 ⟨fun _ => 0, 0⟩ (by decide)⟩

theorem parseDiceType_pos {s : String} {n : Int} (h : parseDiceType s = some n) :
    0 < n := by
  rw [parseDiceType] at h
  split_ifs at h <;> (injection h with h; omega)

/-- C9: for every supported dice type the raw roll is `draw % sides + 1`,
a value in `[1, sides]` that does not depend on the shift; the shift only
selects the displayed shifted result `roll + shift` and the shifted range
`[1 + shift, sides + shift]`, shown exactly when `shift ≠ 0`. -/
theorem dice_shift_independent (dt : String) (sides shift shift2 : Int) (g : Rng)
    (h : parseDiceType dt = some sides) :
    diceCmd dt shift g =
      some (.ok (⟨(g.stream g.idx : Int) % sides + 1,
        if shift ≠ 0 then
          some ((g.stream g.idx : Int) % sides + 1 + shift, 1 + shift, sides + shift)
        else none⟩, g.advance)) ∧
    diceCmd dt shift2 g =
      some (.ok (⟨(g.stream g.idx : Int) % sides + 1,
        if shift2 ≠ 0 then
          some ((g.stream g.idx : Int) % sides + 1 + shift2, 1 + shift2, sides + shift2)
        else none⟩, g.advance)) ∧
    1 ≤ (g.stream g.idx : Int) % sides + 1 ∧
    (g.stream g.idx : Int) % sides + 1 ≤ sides := by
  have hpos := parseDiceType_pos h
  have h0 : (0:Int) ≤ (g.stream g.idx : Int) % sides := emod_nonneg_of_pos hpos
  have h1 : (g.stream g.idx : Int) % sides < sides := Int.emod_lt_of_pos _ hpos
  refine ⟨?_, ?_, by omega, by omega⟩ <;>
    simp only [diceCmd, h, randIntn_pos hpos]

theorem dice_shift_independent_witness :
    diceCmd "d6" 10 ⟨fun _ => 3, 0⟩ =
      some (.ok (⟨4, some (14, 11, 16)⟩, ⟨fun _ => 3, 1⟩)) ∧
    diceCmd "d6" 0 ⟨fun _ => 3, 0⟩ = some (.ok (⟨4, none⟩, ⟨fun _ => 3, 1⟩)) ∧
    (1:Int) ≤ 4 ∧ (4:Int) ≤ 6 :=
  dice_shift_independent "d6" 6 10 0 ⟨fun _ => 3, 0⟩ (by decide)

end Roll
